import Mathlib

/-!
# PolyPaint core — a shallow embedding

A verification development for the PolyPaint texture-painting tool.
JavaScript numbers are embedded as exact rationals (`ℚ`); pure functions of
the source become Lean functions; the two stateful controllers that the
properties below talk about (the brush-stroke engine of `Scene.tsx` and the
gizmo interaction controller of `Gizmo.tsx`) become explicit state-passing
functions folded over event lists.

The repository's leaf math module (`services/math`: `Vec2Utils`, `Vec3Utils`,
`RayUtils`) and its `constants`/`types` modules are not part of the source
tree; the definitions for them below are modelled from the spec and carry a
doc comment saying so.  Everything else is translated directly from the
`.ts`/`.tsx` sources.
-/

namespace PolyPaint

/-- The integer square root, rounded down (a structurally recursive
formulation, so concrete inputs evaluate by kernel reduction). -/
def natSqrt (n : ℕ) : ℕ := Nat.findGreatest (fun k => k * k ≤ n) n

theorem natSqrt_mul_self (a : ℕ) : natSqrt (a * a) = a := by
  unfold natSqrt
  rcases Nat.eq_zero_or_pos a with rfl | ha
  · rfl
  · refine (Nat.findGreatest_eq_iff).mpr ⟨Nat.le_mul_of_pos_left a ha, fun _ => le_rfl, ?_⟩
    intro n hn _ hP
    exact absurd hP (not_le.mpr (mul_lt_mul'' hn hn (Nat.zero_le a) (Nat.zero_le a)))

/-- Modelled from the spec: the repository's `services/math` module is not in
the source tree, so the square root used by `Vec2Utils.distance` /
`Vec2Utils.normalize` ("the Euclidean pixel distance") is modelled as the
exact rational square root.  `sqrtQ q` is the nonnegative rational `r` with
`r * r = q` whenever such an `r` exists (every radicand appearing in a
theorem or a concrete evaluation below is of that form), and `0` otherwise. -/
def sqrtQ (q : ℚ) : ℚ :=
  let n := natSqrt q.num.natAbs
  let d := natSqrt q.den
  if (n : ℤ) * (n : ℤ) = q.num ∧ d * d = q.den then (n : ℚ) / (d : ℚ) else 0

theorem sqrtQ_nonneg (q : ℚ) : 0 ≤ sqrtQ q := by
  unfold sqrtQ
  dsimp only
  split
  · positivity
  · exact le_rfl

theorem sqrtQ_mul_self (q : ℚ) : sqrtQ (q * q) = |q| := by
  unfold sqrtQ
  have hnum : (q * q).num = q.num * q.num := Rat.mul_self_num q
  have hden : (q * q).den = q.den * q.den := Rat.mul_self_den q
  have hnabs : (q * q).num.natAbs = q.num.natAbs * q.num.natAbs := by
    rw [hnum, Int.natAbs_mul]
  have hn : natSqrt (q * q).num.natAbs = q.num.natAbs := by
    rw [hnabs, natSqrt_mul_self]
  have hd : natSqrt (q * q).den = q.den := by
    rw [hden, natSqrt_mul_self]
  dsimp only
  rw [hn, hd]
  rw [if_pos]
  · have hden0 : (0 : ℚ) < (q.den : ℚ) := by exact_mod_cast q.pos
    have habs : |q| = |(q.num : ℚ)| / (q.den : ℚ) := by
      conv_lhs => rw [← Rat.num_div_den q]
      rw [abs_div, abs_of_pos hden0]
    rw [habs]
    congr 1
    rw [Int.cast_natAbs]
    exact Int.cast_abs
  · constructor
    · rw [hnum]
      exact_mod_cast Int.natAbs_mul_self
    · rw [hden]

/-! ## Vector math (`services/math`, modelled from the spec) -/

/-- Modelled from the spec: a 2D vector of the missing `services/math`
module ("minimal 3D vector … and ray utilities"); components are exact
rationals standing for JavaScript numbers. -/
structure Vec2 where
  x : ℚ
  y : ℚ
deriving DecidableEq, Repr

/-- Modelled from the spec: a 3D vector of the missing `services/math`
module. -/
structure Vec3 where
  x : ℚ
  y : ℚ
  z : ℚ
deriving DecidableEq, Repr

namespace Vec2Utils

/-- Modelled from the spec: `Vec2Utils.create`. -/
def create (x y : ℚ) : Vec2 := ⟨x, y⟩

/-- Modelled from the spec: `Vec2Utils.add`. -/
def add (a b : Vec2) : Vec2 := ⟨a.x + b.x, a.y + b.y⟩

/-- Modelled from the spec: `Vec2Utils.subtract`. -/
def sub (a b : Vec2) : Vec2 := ⟨a.x - b.x, a.y - b.y⟩

/-- Modelled from the spec: `Vec2Utils.scale` (componentwise scaling by a
scalar). -/
def scale (v : Vec2) (s : ℚ) : Vec2 := ⟨v.x * s, v.y * s⟩

/-- Modelled from the spec: the Euclidean length, "the Euclidean pixel
distance" of §4.5, through the exact rational square root `sqrtQ`. -/
def length (v : Vec2) : ℚ := sqrtQ (v.x * v.x + v.y * v.y)

/-- Modelled from the spec: `Vec2Utils.distance`, the Euclidean distance. -/
def distance (a b : Vec2) : ℚ := length (sub a b)

/-- Modelled from the spec: `Vec2Utils.normalize`.  Division by a zero
length yields the zero vector (rational division by zero is zero). -/
def normalize (v : Vec2) : Vec2 := ⟨v.x / length v, v.y / length v⟩

theorem length_nonneg (v : Vec2) : 0 ≤ length v := sqrtQ_nonneg _

theorem distance_nonneg (a b : Vec2) : 0 ≤ distance a b := length_nonneg _

end Vec2Utils

namespace Vec3Utils

/-- Modelled from the spec: `Vec3Utils.create` (defaulting to the origin). -/
def create (x y z : ℚ) : Vec3 := ⟨x, y, z⟩

/-- Modelled from the spec: `Vec3Utils.clone` (a fresh copy; identity in a
pure model). -/
def clone (v : Vec3) : Vec3 := v

/-- Modelled from the spec: `Vec3Utils.lerp`, the componentwise linear
interpolation `a + (b - a) * t` used by the loop-cut insertion. -/
def lerp (a b : Vec3) (t : ℚ) : Vec3 :=
  ⟨a.x + (b.x - a.x) * t, a.y + (b.y - a.y) * t, a.z + (b.z - a.z) * t⟩

end Vec3Utils

/-! ## Brush settings (`types.ts` / `constants.ts`, staged inside
`components/Toolbar.tsx`) -/

/-- `BrushSettings.mode`: `'paint' | 'erase'`. -/
inductive BrushMode where
  | paint
  | erase
deriving DecidableEq, Repr, BEq

/-- The `BrushSettings` record.  `usePressure` is set by `INITIAL_BRUSH`
and the brush presets (it is absent from the `BrushSettings` interface
itself) and is read by no drawing code. -/
structure BrushSettings where
  color : String
  size : ℚ
  opacity : ℚ
  hardness : ℚ
  flow : ℚ
  spacing : ℚ
  strength : ℚ
  isAirbrush : Bool
  maskImage : Option String
  textureMix : ℚ
  mode : BrushMode
  rotation : ℚ
  rotationJitter : ℚ
  positionJitter : ℚ
  usePressure : Bool
deriving DecidableEq, Repr

/-- `INITIAL_BRUSH` of `constants.ts` (the fields the embedding keeps). -/
def INITIAL_BRUSH : BrushSettings :=
  { color := "#ff0055", size := 20, opacity := 1, hardness := 8/10,
    flow := 1/2, spacing := 1/10, strength := 1, isAirbrush := false,
    maskImage := none, textureMix := 0, mode := BrushMode.paint,
    rotation := 0, rotationJitter := 0, positionJitter := 0,
    usePressure := true }

/-- `TEXTURE_SIZE` of `constants.ts`. -/
def TEXTURE_SIZE : ℚ := 2048

/-! ## The brush stroke engine (`components/Scene.tsx`) -/

/-- What one `drawStamp(ctx, x, y)` call paints: the parameters the source
hands to the 2D canvas.  `r1, r2, r3` stand for the three `Math.random()`
draws (position jitter x, position jitter y, rotation jitter); the canvas
rotation angle is recorded divided by π (the source computes
`rotation * Math.PI / 180` plus jitter in radians). -/
structure StampDraw where
  posX : ℚ
  posY : ℚ
  angleOverPi : ℚ
  size : ℚ
  alpha : ℚ
  erase : Bool
deriving DecidableEq, Repr

/-- `drawStamp` (Scene.tsx lines 908–984), as the record of effective draw
parameters: effective size is `brush.size`, the global alpha is
`brush.opacity * brush.flow`, position and rotation jitter come from the
random draws.  No pressure input exists in the source. -/
def drawStamp (brush : BrushSettings) (x y r1 r2 r3 : ℚ) : StampDraw :=
  let size := brush.size
  let posX := if 0 < brush.positionJitter then
      x + (r1 - 1/2) * (size * brush.positionJitter) else x
  let posY := if 0 < brush.positionJitter then
      y + (r2 - 1/2) * (size * brush.positionJitter) else y
  let angleOverPi := brush.rotation / 180 +
    (if 0 < brush.rotationJitter then (r3 - 1/2) * 2 * brush.rotationJitter else 0)
  { posX := posX, posY := posY, angleOverPi := angleOverPi, size := size,
    alpha := brush.opacity * brush.flow,
    erase := brush.mode == BrushMode.erase }

/-- The per-gesture stroke state of `PaintableMesh`: `lastUVRef` (the last
stamped position in canvas pixels, `null` before the first stamp) and
`distanceAccumulatorRef`. -/
structure StrokeState where
  lastUV : Option Vec2
  acc : ℚ
deriving DecidableEq, Repr

/-- `handlePointerDown` resets the stroke state: `lastUVRef.current = null`,
`distanceAccumulatorRef.current = 0`. -/
def strokeInit : StrokeState := { lastUV := none, acc := 0 }

/-- UV → canvas pixels inside `paintStroke`:
`x = uv.x * TEXTURE_SIZE`, `y = (1 - uv.y) * TEXTURE_SIZE`. -/
def toPixel (uv : Vec2) : Vec2 := ⟨uv.x * TEXTURE_SIZE, (1 - uv.y) * TEXTURE_SIZE⟩

/-- The `while (distanceAccumulator >= stepSize)` loop of `paintStroke`
(Scene.tsx lines 1012–1029), with explicit fuel (the source's loop has no
bound; fuel-stabilisation is proved below).  Returns the final
last-stamped position, the final accumulator, and the list of stamped
positions in order. -/
def strokeLoop (cur : Vec2) (step : ℚ) : ℕ → Vec2 → ℚ → Vec2 × ℚ × List Vec2
  | 0, last, acc => (last, acc, [])
  | n + 1, last, acc =>
    if step ≤ acc then
      let dir := Vec2Utils.normalize (Vec2Utils.sub cur last)
      let next := Vec2Utils.add last (Vec2Utils.scale dir step)
      let r := strokeLoop cur step n next (acc - step)
      (r.1, r.2.1, next :: r.2.2)
    else (last, acc, [])

/-- `paintStroke(uv)` (Scene.tsx lines 989–1032): first point stamps
immediately; otherwise the pixel distance from the last stamped position is
added to the accumulator and the while-loop stamps every `stepSize`,
`stepSize = max(1, brush.size * brush.spacing)`.  The loop gets fuel
`⌈acc⌉`, shown sufficient by `strokeLoop_stable`. -/
def paintStroke (brush : BrushSettings) (s : StrokeState) (uv : Vec2) :
    StrokeState × List Vec2 :=
  let cur := toPixel uv
  match s.lastUV with
  | none => ({ lastUV := some cur, acc := s.acc }, [cur])
  | some last =>
    let d := Vec2Utils.distance last cur
    let step := max 1 (brush.size * brush.spacing)
    let acc := s.acc + d
    let r := strokeLoop cur step (⌈acc⌉).toNat last acc
    ({ lastUV := some r.1, acc := r.2.1 }, r.2.2)

/-- One paint gesture: `handlePointerDown` resets the stroke state and every
pointer event (the down and each move) calls `paintStroke` with its surface
UV; the stamped positions accumulate in order. -/
def processStroke (brush : BrushSettings) (uvs : List Vec2) :
    StrokeState × List Vec2 :=
  uvs.foldl (fun p uv =>
    let r := paintStroke brush p.1 uv
    (r.1, p.2 ++ r.2)) (strokeInit, [])

/-! ## Layers (`services/layerService.ts`) -/

/-- A `Layer`: identity, name, visibility, opacity and its owned raster
canvas.  The canvas (an `HTMLCanvasElement` plus 2D context in the source)
is kept as a type parameter: the embedding never looks inside it, it only
tracks whether and how it is replaced. -/
structure Layer (Canvas : Type) where
  id : String
  name : String
  visible : Bool
  opacity : ℚ
  canvas : Canvas

namespace LayerAPI

/-- `LayerAPI.remove(layers, id)`: keep the list unchanged when at most one
layer exists, otherwise filter out the layers whose id matches. -/
def remove {C : Type} (layers : List (Layer C)) (id : String) : List (Layer C) :=
  if layers.length ≤ 1 then layers
  else layers.filter (fun l => l.id ≠ id)

end LayerAPI

/-! ## Stencil cuts (`services/stencilService.ts`) -/

namespace StencilAPI

/-- `StencilAPI.addCut(cuts, value)`: copy the array, append `value`, sort
ascending (`[...cuts, value].sort((a, b) => a - b)`); `insertionSort` models
the stable ascending comparison sort of `Array.prototype.sort`. -/
def addCut (cuts : List ℚ) (value : ℚ) : List ℚ :=
  List.insertionSort (· ≤ ·) (cuts ++ [value])

end StencilAPI

/-! ## Loop-cut insertion (`components/Scene.tsx`, `handleInternalAddLoop`) -/

/-- The `while (insertIndex < cuts.length && cuts[insertIndex] < val)`
scan: the index of the first entry not below `val` (the array's length when
every entry is below). -/
def findInsertIndex : List ℚ → ℚ → ℕ
  | [], _ => 0
  | c :: rest, val => if c < val then findInsertIndex rest val + 1 else 0

/-- `vPrev`: the cut at `Math.max(0, insertIndex - 1)` (truncated `ℕ`
subtraction is exactly that clamp).  Out-of-range reads (an empty cuts
array) default to `0`. -/
def vPrevOf (cuts : List ℚ) (val : ℚ) : ℚ :=
  cuts.getD (findInsertIndex cuts val - 1) 0

/-- `vNext`: the cut at `Math.min(cuts.length - 1, insertIndex)`. -/
def vNextOf (cuts : List ℚ) (val : ℚ) : ℚ :=
  cuts.getD (min (cuts.length - 1) (findInsertIndex cuts val)) 0

/-- The interpolation fraction `t`: `0.5` unless the straddling cuts
satisfy `vNext > vPrev`, in which case `(val - vPrev) / (vNext - vPrev)`. -/
def loopT (cuts : List ℚ) (val : ℚ) : ℚ :=
  if vPrevOf cuts val < vNextOf cuts val then
    (val - vPrevOf cuts val) / (vNextOf cuts val - vPrevOf cuts val)
  else 1/2

/-- The `type === 'row'` branch of `handleInternalAddLoop` (Scene.tsx lines
314–341): clone the grid, build the interpolated row (`lerp(pA, pB, t)`
per column, the zero vector where a point is missing), and splice it in at
`insertIndex` (`splice` clamps the index to the length).  The column branch
is symmetric and not needed by the claims. -/
def handleInternalAddLoopRow (gridPoints : List (List Vec3))
    (rowCuts colCuts : List ℚ) (val : ℚ) : List (List Vec3) :=
  let insertIndex := findInsertIndex rowCuts val
  let prevRowIdx := insertIndex - 1
  let nextRowIdx := min (rowCuts.length - 1) insertIndex
  let t := loopT rowCuts val
  let newRowPoints := (List.range colCuts.length).map (fun c =>
    match (gridPoints.getD prevRowIdx [])[c]?, (gridPoints.getD nextRowIdx [])[c]? with
    | some pA, some pB => Vec3Utils.lerp pA pB t
    | _, _ => Vec3Utils.create 0 0 0)
  List.insertIdx (min insertIndex gridPoints.length) newRowPoints gridPoints

/-- The fresh 2×2 grid of `StencilPlane` (Scene.tsx lines 154–160): corners
of the aspect-ratio-scaled unit rectangle, bottom row first. -/
def freshGrid (aspectRatio : ℚ) : List (List Vec3) :=
  [[Vec3Utils.create (-1/2 * aspectRatio) (-1/2) 0,
    Vec3Utils.create (1/2 * aspectRatio) (-1/2) 0],
   [Vec3Utils.create (-1/2 * aspectRatio) (1/2) 0,
    Vec3Utils.create (1/2 * aspectRatio) (1/2) 0]]

/-! ## The projection baker (`components/Scene.tsx`, `triggerBake` and the
bake request handler) -/

/-- `triggerBake` (Scene.tsx lines 725–755): `null` when the stencil object
ref, the loaded stencil texture or the current LUT texture is missing;
otherwise the GPU render + readback produces an `ImageData`.  The render
itself is a GPU pass, abstracted as the function argument `render`. -/
def triggerBake {Obj Tex Lut Img : Type} (render : Obj → Tex → Lut → Img)
    (stencilObject : Option Obj) (stencilTexture : Option Tex)
    (lutTexture : Option Lut) : Option Img :=
  match stencilObject, stencilTexture, lutTexture with
  | some o, some t, some l => some (render o t l)
  | _, _, _ => none

/-- `handleBakeRequest` (Scene.tsx lines 811–836): no-op without a baker,
without a layer of the requested id, or when `bake()` returns `null`;
otherwise the returned pixels are composited (vertical flip, source-over,
alpha 1 — abstracted as `composite`) into that layer's canvas. -/
def handleBakeRequest {C Img : Type} (composite : C → Img → C)
    (baker : Option (Unit → Option Img)) (layers : List (Layer C))
    (layerId : String) : List (Layer C) :=
  match baker with
  | none => layers
  | some bake =>
    match layers.find? (fun l => l.id == layerId) with
    | none => layers
    | some _ =>
      match bake () with
      | none => layers
      | some img =>
        layers.map (fun l =>
          if l.id == layerId then { l with canvas := composite l.canvas img } else l)

/-! ## The gizmo interaction controller (`components/Gizmo.tsx`) -/

/-- A quaternion (the target's orientation); rotating a vector by a
quaternion is a rational computation in the components. -/
structure Quat where
  x : ℚ
  y : ℚ
  z : ℚ
  w : ℚ
deriving DecidableEq, Repr

/-- Modelled from the spec: quaternion application of the missing math
library (`applyRotation` delegates to it): `v + 2 w (q × v) + 2 (q × (q × v))`
for unit quaternions, written out componentwise. -/
def quatApply (q : Quat) (v : Vec3) : Vec3 :=
  let cx := q.y * v.z - q.z * v.y
  let cy := q.z * v.x - q.x * v.z
  let cz := q.x * v.y - q.y * v.x
  let dx := q.y * cz - q.z * cy
  let dy := q.z * cx - q.x * cz
  let dz := q.x * cy - q.y * cx
  ⟨v.x + 2 * (q.w * cx + dx), v.y + 2 * (q.w * cy + dy), v.z + 2 * (q.w * cz + dz)⟩

/-- The three linear axes (`hoverAxis.length === 1` in the source). -/
inductive Axis3 where
  | X
  | Y
  | Z
deriving DecidableEq, Repr

/-- The canonical axis directions rotated into the target's frame
(`getAxisDir`). -/
def getAxisDir (a : Axis3) (rot : Quat) : Vec3 :=
  match a with
  | Axis3.X => quatApply rot ⟨1, 0, 0⟩
  | Axis3.Y => quatApply rot ⟨0, 1, 0⟩
  | Axis3.Z => quatApply rot ⟨0, 0, 1⟩

/-- Modelled from the spec: `RayUtils.closestPointsRayRay` of the missing
math module — the closest-point parameters of two rays, `null` when the
governing denominator is zero (§4.2: a near-parallel configuration "must be
treated as no intersection").  `(t1, t2)` solve the standard 2×2 system. -/
def closestPointsRayRay (o1 d1 o2 d2 : Vec3) : Option (ℚ × ℚ) :=
  let dot := fun (a b : Vec3) => a.x * b.x + a.y * b.y + a.z * b.z
  let w : Vec3 := ⟨o1.x - o2.x, o1.y - o2.y, o1.z - o2.z⟩
  let a := dot d1 d1
  let b := dot d1 d2
  let c := dot d2 d2
  let d := dot d1 w
  let e := dot d2 w
  let denom := a * c - b * b
  if denom = 0 then none
  else some ((b * e - c * d) / denom, (a * e - b * d) / denom)

/-- The single-axis branch of the scale drag in `onPointerMove` (Gizmo.tsx
lines 267–280): closest point of the pointer ray against the axis line,
`scaleFactor = 1 + (dist - startDist)`, written into the dragged axis'
component only, the other two set back to the drag-start snapshot; no
intersection leaves the target's scale as it was this frame. -/
def gizmoScaleAxisMove (axis : Axis3) (rayOrigin rayDir pos : Vec3) (rot : Quat)
    (startScale : Vec3) (startDist : ℚ) (current : Vec3) : Vec3 :=
  match closestPointsRayRay rayOrigin rayDir pos (getAxisDir axis rot) with
  | none => current
  | some (_, t2) =>
    let scaleFactor := 1 + (t2 - startDist)
    match axis with
    | Axis3.X => ⟨startScale.x * scaleFactor, startScale.y, startScale.z⟩
    | Axis3.Y => ⟨startScale.x, startScale.y * scaleFactor, startScale.z⟩
    | Axis3.Z => ⟨startScale.x, startScale.y, startScale.z * scaleFactor⟩

/-- `GizmoHoverAxis` without `null` (the `Option` wraps it below). -/
inductive GAxis where
  | X
  | Y
  | Z
  | XY
  | XZ
  | YZ
  | VIEW
  | SWITCH
deriving DecidableEq, Repr

/-- `GizmoMode`. -/
inductive GizmoMode where
  | translate
  | rotate
  | scale
deriving DecidableEq, Repr

/-- The mode cycle of the switch handle:
`modes[(idx + 1) % 3]` over `['translate', 'rotate', 'scale']`. -/
def nextMode : GizmoMode → GizmoMode
  | GizmoMode.translate => GizmoMode.rotate
  | GizmoMode.rotate => GizmoMode.scale
  | GizmoMode.scale => GizmoMode.translate

/-- The interaction state the pointer handlers read and write: the hovered
axis, the active (dragging) axis and the externally-owned mode. -/
structure GizmoState where
  hover : Option GAxis
  active : Option GAxis
  mode : GizmoMode
deriving DecidableEq, Repr

/-- A pointer event.  `pointerMove` carries the hit-test result
(`getHoverAxis`, a pure function of the ray and the gizmo pose) that the
handler would compute when not dragging. -/
inductive GizmoEvent where
  | pointerDown
  | pointerUp
  | pointerMove (hit : Option GAxis)
deriving DecidableEq, Repr

/-- One step of the pointer handlers (Gizmo.tsx lines 135–358):
`pointerDown` with a hovered axis captures it as active (the switch handle
instead cycles the mode and activates nothing); `pointerUp` clears the
active axis when one is set; `pointerMove` runs drag math while dragging
(hover and active unchanged) and re-runs hit testing only when idle. -/
def gizmoStep (s : GizmoState) (e : GizmoEvent) : GizmoState :=
  match e with
  | GizmoEvent.pointerDown =>
    match s.hover with
    | none => s
    | some a =>
      if a = GAxis.SWITCH then { s with mode := nextMode s.mode }
      else { s with active := some a }
  | GizmoEvent.pointerUp =>
    if s.active.isSome then { s with active := none } else s
  | GizmoEvent.pointerMove hit =>
    if s.active.isSome then s else { s with hover := hit }

/-- A run of the interaction controller over a pointer-event trace. -/
def gizmoRun (s : GizmoState) (es : List GizmoEvent) : GizmoState :=
  es.foldl gizmoStep s

/-! ## Concrete instances used by the counterexamples and witnesses -/

/-- The spec's pressure-response size law, stated from the spec's words
("size scales between 50%–100% of configured size … linear in pressure in
[0,1]") for comparison against `drawStamp`, which has no pressure input. -/
def specPressureSize (configured p : ℚ) : ℚ := configured * (1/2 + (1/2) * p)

/-- `rowCuts` of `StencilAPI.getDefaults()`. -/
def defaultRowCuts : List ℚ := [0, 1]

/-- A brush with `size = 10` and `spacing = 1` (step size
`max(1, 10·1) = 10` pixels); the other fields are `INITIAL_BRUSH`'s. -/
def strokeDemoBrush : BrushSettings :=
  { INITIAL_BRUSH with size := 10, spacing := 1 }

/-- A straight vertical pointer path of pixel length 9 delivered as a
pointer-down plus three intermediate moves: canvas pixels (0,0), (0,3),
(0,6), (0,9). -/
def strokeUVsSubdivided : List Vec2 :=
  [⟨0, 1⟩, ⟨0, 2045/2048⟩, ⟨0, 2042/2048⟩, ⟨0, 2039/2048⟩]

/-- The same straight path delivered as a pointer-down plus a single move
to the end: canvas pixels (0,0), (0,9). -/
def strokeUVsDirect : List Vec2 := [⟨0, 1⟩, ⟨0, 2039/2048⟩]

/-! ## Theorems: the brush stroke engine -/

theorem strokeLoop_stable (cur : Vec2) (step : ℚ) (hstep : 1 ≤ step) :
    ∀ (n : ℕ) (last : Vec2) (acc : ℚ), acc ≤ (n : ℚ) →
      ∀ m : ℕ, n ≤ m →
        strokeLoop cur step m last acc = strokeLoop cur step n last acc := by
  intro n
  induction n with
  | zero =>
    intro last acc hacc m _
    have hlt : ¬ step ≤ acc := by
      push_cast at hacc
      intro hc
      linarith
    cases m with
    | zero => rfl
    | succ m => simp only [strokeLoop, if_neg hlt]
  | succ n ih =>
    intro last acc hacc m hm
    obtain ⟨m', rfl⟩ : ∃ m', m = m' + 1 := ⟨m - 1, by omega⟩
    by_cases h : step ≤ acc
    · simp only [strokeLoop, if_pos h]
      rw [ih _ _ (by push_cast at hacc ⊢; linarith) m' (by omega)]
    · simp only [strokeLoop, if_neg h]

theorem strokeLoop_acc_lt (cur : Vec2) (step : ℚ) (hstep : 1 ≤ step) :
    ∀ (n : ℕ) (last : Vec2) (acc : ℚ), acc ≤ (n : ℚ) →
      (strokeLoop cur step n last acc).2.1 < step := by
  intro n
  induction n with
  | zero =>
    intro last acc hacc
    push_cast at hacc
    simpa [strokeLoop] using by linarith
  | succ n ih =>
    intro last acc hacc
    by_cases h : step ≤ acc
    · simp only [strokeLoop, if_pos h]
      exact ih _ _ (by push_cast at hacc ⊢; linarith)
    · simp only [strokeLoop, if_neg h]
      linarith [not_le.mp h]

theorem strokeLoop_count (cur : Vec2) (step : ℚ) (hstep : 1 ≤ step) :
    ∀ (n : ℕ) (last : Vec2) (acc : ℚ), 0 ≤ acc → acc ≤ (n : ℚ) →
      (strokeLoop cur step n last acc).2.2.length = (⌊acc / step⌋).toNat := by
  have hstep0 : (0 : ℚ) < step := lt_of_lt_of_le one_pos hstep
  intro n
  induction n with
  | zero =>
    intro last acc h0 hacc
    push_cast at hacc
    have : acc = 0 := le_antisymm hacc h0
    subst this
    simp [strokeLoop]
  | succ n ih =>
    intro last acc h0 hacc
    by_cases h : step ≤ acc
    · simp only [strokeLoop, if_pos h, List.length_cons]
      rw [ih _ _ (by linarith) (by push_cast at hacc ⊢; linarith)]
      have hdiv : (acc - step) / step = acc / step - 1 := by
        rw [sub_div, div_self (ne_of_gt hstep0)]
      have hone : (1 : ℚ) ≤ acc / step := (le_div_iff₀ hstep0).mpr (by linarith)
      have hfloor : 1 ≤ ⌊acc / step⌋ := by exact_mod_cast Int.le_floor.mpr (by exact_mod_cast hone)
      rw [hdiv, Int.floor_sub_one]
      omega
    · simp only [strokeLoop, if_neg h, List.length_nil]
      have hlt : acc / step < 1 := (div_lt_one hstep0).mpr (not_le.mp h)
      have hge : 0 ≤ acc / step := div_nonneg h0 (le_of_lt hstep0)
      have : ⌊acc / step⌋ = 0 := Int.floor_eq_zero_iff.mpr ⟨hge, hlt⟩
      simp [this]

/-- C7: for every brush size `S` and spacing ratio `r` (zero, negative or
otherwise) and every accumulated distance, the `while` loop of
`paintStroke` terminates: with step size `max(1, S·r)` the loop's result is
already stable at fuel `⌈acc⌉` (any extra fuel changes nothing, i.e. the
loop exits), and it exits with the accumulator strictly below the step
size. -/
theorem paintStroke_loop_terminates (S r : ℚ) (cur last : Vec2) (acc : ℚ) (extra : ℕ) :
    strokeLoop cur (max 1 (S * r)) ((⌈acc⌉).toNat + extra) last acc
      = strokeLoop cur (max 1 (S * r)) (⌈acc⌉).toNat last acc ∧
    (strokeLoop cur (max 1 (S * r)) (⌈acc⌉).toNat last acc).2.1 < max 1 (S * r) := by
  have hstep : (1 : ℚ) ≤ max 1 (S * r) := le_max_left _ _
  have hacc : acc ≤ ((⌈acc⌉).toNat : ℚ) := by
    refine le_trans (Int.le_ceil acc) ?_
    exact_mod_cast Int.self_le_toNat _
  exact ⟨strokeLoop_stable _ _ hstep _ _ _ hacc _ (Nat.le_add_right _ _),
         strokeLoop_acc_lt _ _ hstep _ _ _ hacc⟩

/-- C1 (amended): when the straight-line path is delivered as a
pointer-down plus a single pointer-move (two events), the stamp count is
exactly `⌊L / max(1, S·r)⌋ + 1` for `L` the computed pixel distance of the
two event positions.  (The subdivision-independence half of the claim is
refuted by `paintStroke_subdivision_cex`.) -/
theorem paintStroke_two_event_count (brush : BrushSettings) (u0 u1 : Vec2) :
    (processStroke brush [u0, u1]).2.length
      = (⌊Vec2Utils.distance (toPixel u0) (toPixel u1)
            / max 1 (brush.size * brush.spacing)⌋).toNat + 1 := by
  have hstep : (1 : ℚ) ≤ max 1 (brush.size * brush.spacing) := le_max_left _ _
  have h0 : 0 ≤ Vec2Utils.distance (toPixel u0) (toPixel u1) :=
    Vec2Utils.distance_nonneg _ _
  have hacc : Vec2Utils.distance (toPixel u0) (toPixel u1)
      ≤ (((⌈Vec2Utils.distance (toPixel u0) (toPixel u1)⌉).toNat : ℕ) : ℚ) := by
    refine le_trans (Int.le_ceil _) ?_
    exact_mod_cast Int.self_le_toNat _
  simp only [processStroke, List.foldl, paintStroke, strokeInit, zero_add,
    List.nil_append, List.singleton_append, List.length_cons]
  rw [strokeLoop_count _ _ hstep _ _ _ h0 hacc]

unseal Rat.add Rat.mul Rat.inv Rat.sub in
/-- C1 (counterexample): the same straight vertical path of pixel length 9,
painted with brush size 10 and spacing ratio 1 (step size 10), yields 2
stamps when delivered as 4 pointer events but only 1 stamp — the value
`⌊9/10⌋ + 1` the claim predicts — when delivered as 2 events: the
accumulator re-measures the distance from the last *stamped* position on
every event, so subdivision inflates it (3 + 6 + 9 = 18 ≥ 10). -/
theorem paintStroke_subdivision_cex :
    (processStroke strokeDemoBrush strokeUVsSubdivided).2.length = 2 ∧
    (processStroke strokeDemoBrush strokeUVsDirect).2.length = 1 ∧
    (processStroke strokeDemoBrush strokeUVsSubdivided).2.length ≠
      (processStroke strokeDemoBrush strokeUVsDirect).2.length := by
  refine ⟨?_, ?_, ?_⟩ <;> decide

/-! ## Theorems: stencil cuts and loop insertion -/

theorem addCut_perm (cuts : List ℚ) (v : ℚ) :
    List.Perm (StencilAPI.addCut cuts v) (cuts ++ [v]) :=
  List.perm_insertionSort _ _

theorem addCut_sorted (cuts : List ℚ) (v : ℚ) :
    (StencilAPI.addCut cuts v).Sorted (· ≤ ·) :=
  List.sorted_insertionSort _ _

theorem addCut_length (cuts : List ℚ) (v : ℚ) :
    (StencilAPI.addCut cuts v).length = cuts.length + 1 := by
  simpa using (addCut_perm cuts v).length_eq

theorem addCut_count (cuts : List ℚ) (v : ℚ) :
    (StencilAPI.addCut cuts v).count v = cuts.count v + 1 := by
  simpa using (addCut_perm cuts v).count_eq v

/-- C10: `addCut` returns a list one element longer, sorted non-decreasing,
that is a permutation of the input plus the new value (so the cuts never
shrink and stay sorted; the input itself is untouched — the source copies
the array before sorting, and the embedding is pure). -/
theorem addCut_grows_sorted (cuts : List ℚ) (v : ℚ) :
    (StencilAPI.addCut cuts v).length = cuts.length + 1 ∧
    (StencilAPI.addCut cuts v).Sorted (· ≤ ·) ∧
    List.Perm (StencilAPI.addCut cuts v) (cuts ++ [v]) :=
  ⟨addCut_length cuts v, addCut_sorted cuts v, addCut_perm cuts v⟩

/-- C4 (counterexample): inserting a loop at `v = 1`, which is exactly an
existing cut of the default `rowCuts = [0, 1]`, duplicates the cut value:
`addCut` appends unconditionally, so `1` now occurs twice. -/
theorem addCut_duplicate_cex :
    StencilAPI.addCut defaultRowCuts 1 = [0, 1, 1] ∧
    (StencilAPI.addCut defaultRowCuts 1).count 1 = 2 := by
  exact ⟨by decide, by decide⟩

/-- C4 (amended): inserting a loop at an existing cut's value does not
throw (the embedding is total) and the interpolation fraction degrades to
`0.5` when the straddling cuts are equal; however `addCut` does append a
duplicate of the value — its multiplicity grows by one — while the array
stays sorted. -/
theorem addCut_at_existing_cut (cuts : List ℚ) (val : ℚ) :
    (StencilAPI.addCut cuts val).count val = cuts.count val + 1 ∧
    (StencilAPI.addCut cuts val).Sorted (· ≤ ·) ∧
    (vPrevOf cuts val = vNextOf cuts val → loopT cuts val = 1/2) := by
  refine ⟨addCut_count cuts val, addCut_sorted cuts val, fun h => ?_⟩
  simp [loopT, h]

unseal Rat.add Rat.mul Rat.inv Rat.sub in
/-- C3: a row loop at `v = 0.5` on a fresh 2×2 grid (any four corner
points, `rowCuts = colCuts = [0, 1]`) inserts exactly the pointwise
midpoint (`t = 0.5` lerp) of the bottom and top rows as the new middle
row, and the updated cuts are `[0, 0.5, 1]`. -/
theorem addLoopRow_midpoint_scenario (p00 p01 p10 p11 : Vec3) :
    handleInternalAddLoopRow [[p00, p01], [p10, p11]] [0, 1] [0, 1] (1/2)
      = [[p00, p01],
         [Vec3Utils.lerp p00 p10 (1/2), Vec3Utils.lerp p01 p11 (1/2)],
         [p10, p11]] ∧
    StencilAPI.addCut [0, 1] (1/2) = [0, 1/2, 1] := by
  constructor
  · have ht : loopT [0, 1] (1/2) = 1/2 := by
      norm_num [loopT, vPrevOf, vNextOf, findInsertIndex]
    have key : handleInternalAddLoopRow [[p00, p01], [p10, p11]] [0, 1] [0, 1] (1/2)
        = [[p00, p01],
           [Vec3Utils.lerp p00 p10 (loopT [0, 1] (1/2)),
            Vec3Utils.lerp p01 p11 (loopT [0, 1] (1/2))],
           [p10, p11]] := rfl
    rw [key, ht]
  · decide

/-! ## Theorems: the brush stamp -/

unseal Rat.add Rat.mul Rat.inv Rat.sub in
/-- C5 (counterexample): `INITIAL_BRUSH` has pressure response enabled and
size 20, yet the stamp drawn by `drawStamp` has effective size 20, not the
50% (= 10) the spec's law demands at pressure 0 — `drawStamp` takes no
pressure input at all. -/
theorem drawStamp_pressure_cex :
    INITIAL_BRUSH.usePressure = true ∧
    (drawStamp INITIAL_BRUSH 0 0 (1/2) (1/2) (1/2)).size = 20 ∧
    specPressureSize INITIAL_BRUSH.size 0 = 10 ∧
    (drawStamp INITIAL_BRUSH 0 0 (1/2) (1/2) (1/2)).size
      ≠ specPressureSize INITIAL_BRUSH.size 0 := by
  refine ⟨rfl, by decide, by decide, by decide⟩

/-- C5 (amended): `drawStamp` applies no pressure modulation: whatever the
pressure toggle or any input, the effective stamp size is exactly the
configured `brush.size` and the effective alpha is exactly
`brush.opacity * brush.flow`. -/
theorem drawStamp_ignores_pressure (brush : BrushSettings) (x y r1 r2 r3 : ℚ) :
    (drawStamp brush x y r1 r2 r3).size = brush.size ∧
    (drawStamp brush x y r1 r2 r3).alpha = brush.opacity * brush.flow :=
  ⟨rfl, rfl⟩

/-! ## Theorems: the gizmo -/

/-- C6: a pointer-move step of a single-axis scale drag on axis X leaves
the target's y and z scale components at their drag-start values: the
no-intersection branch keeps the current scale (whose y/z equal the
snapshot by the invariant hypothesis) and the update branch writes the
snapshot values back verbatim. -/
theorem scaleAxisMove_X_keeps_other_axes (rayO rayD pos : Vec3) (rot : Quat)
    (startScale : Vec3) (startDist : ℚ) (current : Vec3)
    (hy : current.y = startScale.y) (hz : current.z = startScale.z) :
    (gizmoScaleAxisMove Axis3.X rayO rayD pos rot startScale startDist current).y
      = startScale.y ∧
    (gizmoScaleAxisMove Axis3.X rayO rayD pos rot startScale startDist current).z
      = startScale.z := by
  rcases hc : closestPointsRayRay rayO rayD pos (getAxisDir Axis3.X rot) with _ | ⟨t1, t2⟩
  · simp [gizmoScaleAxisMove, hc, hy, hz]
  · simp [gizmoScaleAxisMove, hc]

/-- Witness for C6 at a concrete drag configuration (the ray actually hits:
the closest-point computation returns a value, so the update branch runs). -/
theorem scaleAxisMove_X_keeps_other_axes_witness :
    (gizmoScaleAxisMove Axis3.X ⟨0, 0, 5⟩ ⟨0, 0, -1⟩ ⟨0, 0, 0⟩ ⟨0, 0, 0, 1⟩
        ⟨2, 3, 4⟩ 0 ⟨9, 3, 4⟩).y = (⟨2, 3, 4⟩ : Vec3).y ∧
    (gizmoScaleAxisMove Axis3.X ⟨0, 0, 5⟩ ⟨0, 0, -1⟩ ⟨0, 0, 0⟩ ⟨0, 0, 0, 1⟩
        ⟨2, 3, 4⟩ 0 ⟨9, 3, 4⟩).z = (⟨2, 3, 4⟩ : Vec3).z :=
  scaleAxisMove_X_keeps_other_axes _ _ _ _ _ _ _ rfl rfl

/-! ## Theorems: layers and the baker -/

/-- C9: `LayerAPI.remove` removes a layer only when more than one layer
exists: with at most one layer the input list comes back unchanged whatever
the id; with at least two, every layer whose id matches is gone and every
other layer survives. -/
theorem layerRemove_keeps_last_layer (C : Type) (layers : List (Layer C)) (id : String) :
    (layers.length ≤ 1 → LayerAPI.remove layers id = layers) ∧
    (1 < layers.length →
      (∀ l ∈ LayerAPI.remove layers id, l.id ≠ id) ∧
      (∀ l ∈ layers, l.id ≠ id → l ∈ LayerAPI.remove layers id)) := by
  constructor
  · intro h
    simp [LayerAPI.remove, h]
  · intro h
    have hn : ¬ layers.length ≤ 1 := by omega
    refine ⟨?_, ?_⟩
    · intro l hl
      rw [LayerAPI.remove, if_neg hn] at hl
      simpa using (List.mem_filter.mp hl).2
    · intro l hl hne
      rw [LayerAPI.remove, if_neg hn]
      exact List.mem_filter.mpr ⟨hl, by simpa⟩

/-- C2: when the stencil object ref, the stencil texture or the LUT is
missing, `triggerBake` returns `null`, and the bake request handler then
returns before any canvas write: the layer list, every layer's canvas
included, is exactly the input. -/
theorem bake_not_ready (Obj Tex Lut Img C : Type) (render : Obj → Tex → Lut → Img)
    (composite : C → Img → C) (layers : List (Layer C)) (layerId : String)
    (so : Option Obj) (st : Option Tex) (lt : Option Lut)
    (h : so = none ∨ st = none ∨ lt = none) :
    triggerBake render so st lt = none ∧
    handleBakeRequest composite (some (fun _ => triggerBake render so st lt))
      layers layerId = layers := by
  have hb : triggerBake render so st lt = none := by
    rcases h with h | h | h <;> subst h
    · cases st <;> cases lt <;> rfl
    · cases so <;> cases lt <;> rfl
    · cases so <;> cases st <;> rfl
  refine ⟨hb, ?_⟩
  unfold handleBakeRequest
  cases layers.find? (fun l => l.id == layerId) with
  | none => rfl
  | some l => simp [hb]

/-- Witness for C2: a missing stencil object with a loaded texture and LUT
— bake yields `null` and the (empty) layer list survives untouched. -/
theorem bake_not_ready_witness :
    triggerBake (fun (_ : Unit) (_ : Unit) (_ : Unit) => (0 : ℕ))
        none (some ()) (some ()) = none ∧
    handleBakeRequest (fun (c : ℕ) (_ : ℕ) => c)
      (some (fun _ => triggerBake (fun (_ : Unit) (_ : Unit) (_ : Unit) => (0 : ℕ))
        none (some ()) (some ())))
      ([] : List (Layer ℕ)) "projection-layer" = [] :=
  bake_not_ready Unit Unit Unit ℕ ℕ _ _ _ _ _ _ _ (Or.inl rfl)

/-! ## Theorems: gizmo axis exclusivity -/

theorem gizmoRun_append (s : GizmoState) (es : List GizmoEvent) (e : GizmoEvent) :
    gizmoRun s (es ++ [e]) = gizmoStep (gizmoRun s es) e := by
  simp [gizmoRun, List.foldl_append]

theorem gizmoStep_up_active (s : GizmoState) :
    (gizmoStep s GizmoEvent.pointerUp).active = none := by
  unfold gizmoStep
  by_cases h : s.active.isSome
  · rw [if_pos h]
  · rw [if_neg h]
    exact Option.not_isSome_iff_eq_none.mp h

/-- C8: `activeAxis` (a single `Option` field, so at most one axis is active
at any instant) is non-null only strictly between a pointer-down that
happened while that axis was hovered (and was not the mode-switch hotspot)
and the matching pointer-up: any trace from an idle state ending with an
active axis decomposes into a prefix whose final hover is that axis, the
capturing pointer-down, and an up-free suffix.  Hover is recomputed by
pointer-moves only when no drag is active (`gizmoStep`). -/
theorem gizmo_active_between_down_and_up (s0 : GizmoState) (es : List GizmoEvent)
    (a : GAxis) (hidle : s0.active = none)
    (hact : (gizmoRun s0 es).active = some a) :
    ∃ es₁ es₂, es = es₁ ++ GizmoEvent.pointerDown :: es₂ ∧
      (gizmoRun s0 es₁).hover = some a ∧ a ≠ GAxis.SWITCH ∧
      GizmoEvent.pointerUp ∉ es₂ := by
  induction es using List.reverseRecOn with
  | nil =>
    rw [show gizmoRun s0 [] = s0 from rfl, hidle] at hact
    exact absurd hact (by simp)
  | append_singleton es e ih =>
    rw [gizmoRun_append] at hact
    cases e with
    | pointerUp =>
      rw [gizmoStep_up_active] at hact
      exact absurd hact (by simp)
    | pointerDown =>
      rcases hh : (gizmoRun s0 es).hover with _ | b
      · have hstep : gizmoStep (gizmoRun s0 es) GizmoEvent.pointerDown = gizmoRun s0 es := by
          simp [gizmoStep, hh]
        rw [hstep] at hact
        obtain ⟨es₁, es₂, heq, h1, h2, h3⟩ := ih hact
        refine ⟨es₁, es₂ ++ [GizmoEvent.pointerDown], by rw [heq]; simp, h1, h2, ?_⟩
        simp [h3]
      · by_cases hb : b = GAxis.SWITCH
        · have hstep : (gizmoStep (gizmoRun s0 es) GizmoEvent.pointerDown).active
              = (gizmoRun s0 es).active := by
            simp [gizmoStep, hh, hb]
          rw [hstep] at hact
          obtain ⟨es₁, es₂, heq, h1, h2, h3⟩ := ih hact
          refine ⟨es₁, es₂ ++ [GizmoEvent.pointerDown], by rw [heq]; simp, h1, h2, ?_⟩
          simp [h3]
        · have hstep : (gizmoStep (gizmoRun s0 es) GizmoEvent.pointerDown).active
              = some b := by
            simp [gizmoStep, hh, hb]
          rw [hstep] at hact
          obtain rfl : b = a := Option.some.inj hact
          exact ⟨es, [], by simp, hh, hb, by simp⟩
    | pointerMove hit =>
      by_cases hs : (gizmoRun s0 es).active.isSome
      · have hstep : gizmoStep (gizmoRun s0 es) (GizmoEvent.pointerMove hit)
            = gizmoRun s0 es := by
          simp [gizmoStep, hs]
        rw [hstep] at hact
        obtain ⟨es₁, es₂, heq, h1, h2, h3⟩ := ih hact
        refine ⟨es₁, es₂ ++ [GizmoEvent.pointerMove hit], by rw [heq]; simp, h1, h2, ?_⟩
        simp [h3]
      · have hstep : (gizmoStep (gizmoRun s0 es) (GizmoEvent.pointerMove hit)).active
            = (gizmoRun s0 es).active := by
          simp [gizmoStep, hs]
        rw [hstep] at hact
        have hnone : (gizmoRun s0 es).active = none :=
          Option.not_isSome_iff_eq_none.mp hs
        rw [hnone] at hact
        exact absurd hact (by simp)

/-- Witness for C8: a hover onto axis X followed by a pointer-down leaves X
active, and the decomposition exists as the theorem states. -/
theorem gizmo_active_between_down_and_up_witness :
    ∃ es₁ es₂,
      ([GizmoEvent.pointerMove (some GAxis.X), GizmoEvent.pointerDown] : List GizmoEvent)
        = es₁ ++ GizmoEvent.pointerDown :: es₂ ∧
      (gizmoRun ⟨none, none, GizmoMode.translate⟩ es₁).hover = some GAxis.X ∧
      GAxis.X ≠ GAxis.SWITCH ∧ GizmoEvent.pointerUp ∉ es₂ :=
  gizmo_active_between_down_and_up ⟨none, none, GizmoMode.translate⟩
    [GizmoEvent.pointerMove (some GAxis.X), GizmoEvent.pointerDown] GAxis.X rfl rfl

end PolyPaint
